import Mathlib

/-!
# Steam web API key client (`webapi.go`)

A shallow embedding of the three operations of `webapi.go`
(`RegisterWebAPIKey`, `GetWebAPIKey`, `RevokeWebAPIKey`) together with the
parts of the Go standard library they call (`regexp`, `net/url`,
`net/http`, `io/ioutil`), and the properties of the operations.

An operation is a function from the session before the call to what the call
returns and the session after the call. The session holds its client, and the
client holds what the remote side answers and the requests it has executed.
-/

namespace Steam

/-! ## Go strings -/

/-- A byte. -/
abbrev Byte := Fin 256

/-- A Go `string` or `[]byte`: a finite sequence of bytes (not necessarily
valid UTF-8). -/
abbrev GoString := List Byte

/-- The bytes of a string literal of the source. The literals of the file are
ASCII, so each character is the byte of its code. -/
def ascii (s : String) : GoString :=
  s.toList.map fun c => Fin.ofNat c.toNat

/-- The byte of an ASCII character. -/
def ch (c : Char) : Byte :=
  Fin.ofNat c.toNat

/-! ## Errors -/

/-- A non-nil value of type `error`. The four values that `webapi.go` makes
with `errors.New` are distinct from each other and from every error made
elsewhere (`other`). A nil `error` is `none` in `Option Error`. -/
inductive Error where
  | ErrCannotRegisterKey : Error
  | ErrCannotRevokeKey : Error
  | ErrAccessDenied : Error
  | ErrKeyNotFound : Error
  | other (code : Nat) : Error
  deriving DecidableEq, Repr

/-! ## Package `regexp`, for the syntax the two patterns of the file use -/

/-- The regular expressions that the patterns of `webapi.go` are built from:
literal bytes, a character class given by its ranges, concatenation, the
greedy `+` and a capturing group. The patterns of the file are ASCII, and an
ASCII byte of the input is never part of a longer UTF-8 sequence, so matching
byte by byte is matching character by character. -/
inductive Regexp where
  | empty : Regexp
  | lit (b : Byte) : Regexp
  | cls (ranges : List (Byte × Byte)) : Regexp
  | cat (r s : Regexp) : Regexp
  | plus (r : Regexp) : Regexp
  | cap (r : Regexp) : Regexp
  deriving Repr

/-- One way of matching a regular expression at the start of an input: what
is left of the input after the match, and the text of the capturing groups in
the order of their opening parentheses. -/
structure Thread where
  rest : GoString
  groups : List GoString
  deriving DecidableEq, Repr

/-- The iteration of `r+`. `step` matches `r` once; every way of matching it
is first continued with further iterations (greedy), then taken as the last
iteration. An iteration that consumes nothing is not repeated. The groups of
a thread are those of its last iteration. -/
def plusLoop (step : GoString → List Thread) : Nat → GoString → List Thread
  | 0, _ => []
  | n + 1, s =>
    (step s).flatMap fun t =>
      (if t.rest.length < s.length then plusLoop step n t.rest else []) ++ [t]

/-- All the ways of matching `r` at the start of the input, in the order of
preference of a backtracking (leftmost-first) matcher. -/
def Regexp.run : Regexp → GoString → List Thread
  | .empty => fun s => [⟨s, []⟩]
  | .lit b => fun s =>
    match s with
    | [] => []
    | c :: t => if c = b then [⟨t, []⟩] else []
  | .cls ranges => fun s =>
    match s with
    | [] => []
    | c :: t => if ranges.any (fun r => decide (r.1 ≤ c) && decide (c ≤ r.2)) then [⟨t, []⟩] else []
  | .cat r₁ r₂ => fun s =>
    (r₁.run s).flatMap fun t₁ =>
      (r₂.run t₁.rest).map fun t₂ => ⟨t₂.rest, t₁.groups ++ t₂.groups⟩
  | .plus r => fun s => plusLoop r.run (s.length + 1) s
  | .cap r => fun s =>
    (r.run s).map fun t => ⟨t.rest, s.take (s.length - t.rest.length) :: t.groups⟩

/-- The concatenation of the literal bytes of `s`. -/
def Regexp.str : GoString → Regexp
  | [] => .empty
  | b :: s => .cat (.lit b) (Regexp.str s)

/-- The match of `re` that starts at the first byte of `s`, if there is one:
the matched text followed by the text of the groups, for the preferred way of
matching. -/
def Regexp.matchAt (re : Regexp) (s : GoString) : Option (List GoString) :=
  match re.run s with
  | t :: _ => some (s.take (s.length - t.rest.length) :: t.groups)
  | [] => none

/-- The leftmost match of `re` in `s`: the match at the first start position
at which `re` matches. `none` when `re` matches nowhere. -/
def Regexp.find (re : Regexp) : GoString → Option (List GoString)
  | [] => re.matchAt []
  | c :: s =>
    match re.matchAt (c :: s) with
    | some m => some m
    | none => Regexp.find re s

/-- `regexp.Match` for a pattern that compiles: whether the pattern matches
somewhere in `b`, and a nil error (the error is that of compiling the
pattern). -/
def regexp.Match (pattern : Regexp) (b : GoString) : Bool × Option Error :=
  ((pattern.find b).isSome, none)

/-- `(*Regexp).FindStringSubmatch`: the text of the leftmost match and of its
groups, or the empty (nil) slice when there is no match. -/
def Regexp.FindStringSubmatch (re : Regexp) (s : GoString) : List GoString :=
  (re.find s).getD []

/-! ## Package `net/url`: form values and their encoding -/

/-- The order `<` of Go on strings: bytewise lexicographic. -/
def strLt : GoString → GoString → Bool
  | _, [] => false
  | [], _ :: _ => true
  | a :: s, b :: t => decide (a < b) || (decide (a = b) && strLt s t)

/-- Insertion of a key into a sorted list of keys. -/
def insertKey (k : GoString) : List GoString → List GoString
  | [] => [k]
  | k₁ :: ks => if strLt k₁ k then k₁ :: insertKey k ks else k :: k₁ :: ks

/-- The keys in increasing order, as `sort.Strings` leaves them. -/
def sortKeys (ks : List GoString) : List GoString :=
  ks.foldr insertKey []

/-- Function `shouldEscape` in mode `encodeQueryComponent`: everything but
letters, digits and `-`, `_`, `.`, `~` is escaped. -/
def shouldEscape (c : Byte) : Bool :=
  if (ch 'a' ≤ c ∧ c ≤ ch 'z') ∨ (ch 'A' ≤ c ∧ c ≤ ch 'Z') ∨ (ch '0' ≤ c ∧ c ≤ ch '9') then false
  else if c = ch '-' ∨ c = ch '_' ∨ c = ch '.' ∨ c = ch '~' then false
  else true

/-- The table `upperhex`. -/
def upperhex : GoString :=
  ascii "0123456789ABCDEF"

/-- What `escape` writes for one byte in mode `encodeQueryComponent`. -/
def escapeByte (c : Byte) : GoString :=
  if shouldEscape c then
    if c = ch ' ' then [ch '+']
    else [ch '%', upperhex.getD (c.val >>> 4) 0, upperhex.getD (c.val &&& 15) 0]
  else [c]

/-- `url.QueryEscape`. (The source returns `s` itself when no byte needs
escaping, which is what the byte-by-byte copy gives.) -/
def url.QueryEscape (s : GoString) : GoString :=
  s.flatMap escapeByte

/-- `url.Values`: a map from a key to its values. The pairs of a literal are
listed as the source writes them; the keys of a map are distinct. -/
abbrev url.Values := List (GoString × List GoString)

/-- `Values.Encode`: the form in URL-encoded form (`bar=baz&foo=quux`), sorted
by key. -/
def url.Values.Encode (v : url.Values) : GoString :=
  if v.length = 0 then []
  else
    (sortKeys (v.map Prod.fst)).foldl
      (fun buf k =>
        let vs := (v.lookup k).getD []
        let keyEscaped := url.QueryEscape k
        vs.foldl
          (fun buf val =>
            let buf := if buf.length > 0 then buf ++ [ch '&'] else buf
            buf ++ keyEscaped ++ [ch '='] ++ url.QueryEscape val)
          buf)
      []

/-! ### Decoding, as `url.ParseQuery` does it -/

/-- Function `ishex`. -/
def ishex (c : Byte) : Bool :=
  (decide (ch '0' ≤ c) && decide (c ≤ ch '9')) || (decide (ch 'a' ≤ c) && decide (c ≤ ch 'f')) ||
    (decide (ch 'A' ≤ c) && decide (c ≤ ch 'F'))

/-- Function `unhex`. -/
def unhex (c : Byte) : Byte :=
  if ch '0' ≤ c ∧ c ≤ ch '9' then c - ch '0'
  else if ch 'a' ≤ c ∧ c ≤ ch 'f' then c - ch 'a' + 10
  else if ch 'A' ≤ c ∧ c ≤ ch 'F' then c - ch 'A' + 10
  else 0

/-- The error `url.EscapeError`. -/
def escapeError : Error :=
  .other 1

/-- `url.QueryUnescape`: `%AB` becomes the byte `0xAB` and `+` a space; a `%`
that two hexadecimal digits do not follow is an error. -/
def url.QueryUnescape : GoString → Except Error GoString
  | [] => .ok []
  | c :: s =>
    if c = ch '%' then
      match s with
      | a :: b :: r =>
        if ishex a && ishex b then
          (url.QueryUnescape r).map fun t => (unhex a <<< 4 ||| unhex b) :: t
        else .error escapeError
      | _ => .error escapeError
    else if c = ch '+' then (url.QueryUnescape s).map fun t => ch ' ' :: t
    else (url.QueryUnescape s).map fun t => c :: t

/-- Function `strings.Cut` for a separator of one byte: the text before and
after the first `sep`, or all of `s` and the empty string when `sep` does not
occur. -/
def cut (sep : Byte) : GoString → GoString × GoString
  | [] => ([], [])
  | c :: s => if c = sep then ([], s) else (c :: (cut sep s).1, (cut sep s).2)

/-- The pieces of `s` between the occurrences of `sep`. -/
def splitOn (sep : Byte) : GoString → List GoString
  | [] => [[]]
  | c :: s =>
    if c = sep then [] :: splitOn sep s
    else
      match splitOn sep s with
      | [] => [[c]]
      | p :: ps => (c :: p) :: ps

/-- The statement `m[key] = append(m[key], value)`. -/
def url.Values.add (m : url.Values) (key value : GoString) : url.Values :=
  match m with
  | [] => [(key, [value])]
  | (k, vs) :: m₁ => if k = key then (k, vs ++ [value]) :: m₁ else (k, vs) :: url.Values.add m₁ key value

/-- The error of `parseQuery` for a semicolon. -/
def semicolonError : Error :=
  .other 2

/-- One round of the loop of `parseQuery`, for the setting `key` up to the
next `&`. -/
def parseSetting (acc : url.Values × Option Error) (key : GoString) : url.Values × Option Error :=
  if ch ';' ∈ key then (acc.1, some semicolonError)
  else if key = [] then acc
  else
    let kv := cut (ch '=') key
    match url.QueryUnescape kv.1 with
    | .error err1 => (acc.1, if acc.2 = none then some err1 else acc.2)
    | .ok key =>
      match url.QueryUnescape kv.2 with
      | .error err1 => (acc.1, if acc.2 = none then some err1 else acc.2)
      | .ok value => (acc.1.add key value, acc.2)

/-- `url.ParseQuery`: the form that a URL-encoded query stands for, and the
error met while decoding it, if any. The loop of the source cuts the query at
each `&` in turn. -/
def url.ParseQuery (query : GoString) : url.Values × Option Error :=
  if query = [] then ([], none) else (splitOn (ch '&') query).foldl parseSetting ([], none)

/-! ## Package `net/http` and `io/ioutil` -/

/-- A request: method, URL and body (`none` for a nil body). -/
structure Request where
  Method : GoString
  URL : GoString
  Body : Option GoString
  deriving DecidableEq, Repr

/-- The body of a response, as `ioutil.ReadAll` finds it: the bytes it reads
and the error that ends the reading, if any. -/
structure ReadCloser where
  data : GoString
  err : Option Error
  deriving DecidableEq, Repr

/-- A response: the fields of `http.Response` that the file reads. -/
structure Response where
  StatusCode : Int
  Body : ReadCloser
  deriving DecidableEq, Repr

/-- What `(*http.Client).Do` returns. With a nil error the response is
non-nil; with an error a response may come along (when `CheckRedirect` fails).
`Do` never returns a nil response with a nil error. -/
inductive DoResult where
  | ok (resp : Response) : DoResult
  | fail (resp : Option Response) (err : Error) : DoResult
  deriving DecidableEq, Repr

/-- The HTTP client of a session with the remote side behind it: what the
remote side answers to a request, and the requests executed so far, oldest
first. -/
structure Client where
  respond : Request → DoResult
  sent : List Request

/-- `(*http.Client).Do`. -/
def Client.Do (client : Client) (req : Request) : DoResult × Client :=
  (client.respond req, { client with sent := client.sent ++ [req] })

/-- `http.MethodPost`. -/
def http.MethodPost : GoString :=
  ascii "POST"

/-- `http.MethodGet`. -/
def http.MethodGet : GoString :=
  ascii "GET"

/-- `http.StatusOK`. -/
def http.StatusOK : Int :=
  200

/-- `http.NewRequest`. It fails for a method that is not a token and for a URL
that does not parse; for the methods and URLs of this file, the only ones it
is called with, it returns the request. -/
def http.NewRequest (method url : GoString) (body : Option GoString) : Except Error Request :=
  .ok ⟨method, url, body⟩

/-- `ioutil.ReadAll`. -/
def ioutil.ReadAll (r : ReadCloser) : GoString × Option Error :=
  (r.data, r.err)

/-! ## `webapi.go` -/

/-- Constant `apiKeyURL`. -/
def apiKeyURL : GoString :=
  ascii "https://steamcommunity.com/dev/apikey"

/-- Constant `apiKeyRegisterURL`. -/
def apiKeyRegisterURL : GoString :=
  ascii "https://steamcommunity.com/dev/registerkey"

/-- Constant `apiKeyRevokeURL`. -/
def apiKeyRevokeURL : GoString :=
  ascii "https://steamcommunity.com/dev/revokekey"

/-- Constant `accessDeniedPattern`, compiled; it has no metacharacter. -/
def accessDeniedPattern : Regexp :=
  Regexp.str (ascii "<h2>Access Denied</h2>")

/-- The class `[0-9A-F]`. -/
def upperHexClass : Regexp :=
  .cls [(ch '0', ch '9'), (ch 'A', ch 'F')]

/-- Variable `keyRegExp`: the pattern `<p>Key: ([0-9A-F]+)</p>`, compiled. -/
def keyRegExp : Regexp :=
  .cat (Regexp.str (ascii "<p>Key: ")) (.cat (.cap (.plus upperHexClass)) (Regexp.str (ascii "</p>")))

/-- The fields of `Community` that the file uses. -/
structure Community where
  client : Client
  sessionID : GoString
  apiKey : GoString

/-- Method `RegisterWebAPIKey`: the error returned and the session after the
call. (`resp.Body.Close()` changes nothing that the file reads.) -/
def Community.RegisterWebAPIKey (community : Community) (domain : GoString) : Option Error × Community :=
  let values : url.Values :=
    [(ascii "domain", [domain]),
     (ascii "agreeToTerms", [ascii "agreed"]),
     (ascii "sessionid", [community.sessionID]),
     (ascii "Submit", [ascii "Register"])]
  match http.NewRequest http.MethodPost apiKeyRegisterURL (some values.Encode) with
  | .error err => (some err, community)
  | .ok req =>
    let done := community.client.Do req
    let community := { community with client := done.2 }
    match done.1 with
    | .fail _ err => (some err, community)
    | .ok resp =>
      if resp.StatusCode ≠ http.StatusOK then (some .ErrCannotRegisterKey, community)
      else (none, community)

/-- Method `GetWebAPIKey`: the key and the error returned, and the session
after the call. -/
def Community.GetWebAPIKey (community : Community) : GoString × Option Error × Community :=
  match http.NewRequest http.MethodGet apiKeyURL none with
  | .error err => ([], some err, community)
  | .ok req =>
    let done := community.client.Do req
    let community := { community with client := done.2 }
    match done.1 with
    | .fail _ err => ([], some err, community)
    | .ok resp =>
      match ioutil.ReadAll resp.Body with
      | (_, some err) => ([], some err, community)
      | (body, none) =>
        match regexp.Match accessDeniedPattern body with
        | (_, some err) => ([], some err, community)
        | (m, none) =>
          if m then ([], some .ErrAccessDenied, community)
          else
            let submatch := keyRegExp.FindStringSubmatch body
            if submatch.length ≤ 1 then ([], some .ErrKeyNotFound, community)
            else (submatch.getD 1 [], none, { community with apiKey := submatch.getD 1 [] })

/-- Method `RevokeWebAPIKey`: the error returned and the session after the
call. -/
def Community.RevokeWebAPIKey (community : Community) : Option Error × Community :=
  let values : url.Values :=
    [(ascii "revoke", [ascii "Revoke My Steam Web API Key"]),
     (ascii "sessionid", [community.sessionID])]
  match http.NewRequest http.MethodPost apiKeyRevokeURL (some values.Encode) with
  | .error err => (some err, community)
  | .ok req =>
    let done := community.client.Do req
    let community := { community with client := done.2 }
    match done.1 with
    | .fail _ err => (some err, community)
    | .ok resp =>
      if resp.StatusCode ≠ http.StatusOK then (some .ErrCannotRevokeKey, community)
      else (none, community)

/-! ## The properties: what they are stated with -/

/-- The request that `GetWebAPIKey` makes. -/
def getRequest : Request :=
  ⟨http.MethodGet, apiKeyURL, none⟩

/-- The request that `RegisterWebAPIKey` makes for a session token and a
domain. -/
def registerRequest (sessionID domain : GoString) : Request :=
  ⟨http.MethodPost, apiKeyRegisterURL,
    some (url.Values.Encode
      [(ascii "domain", [domain]),
       (ascii "agreeToTerms", [ascii "agreed"]),
       (ascii "sessionid", [sessionID]),
       (ascii "Submit", [ascii "Register"])])⟩

/-- The request that `RevokeWebAPIKey` makes for a session token. -/
def revokeRequest (sessionID : GoString) : Request :=
  ⟨http.MethodPost, apiKeyRevokeURL,
    some (url.Values.Encode
      [(ascii "revoke", [ascii "Revoke My Steam Web API Key"]),
       (ascii "sessionid", [sessionID])])⟩

/-- The session after its client has executed `req`. -/
def Community.afterDo (community : Community) (req : Request) : Community :=
  { community with client := (community.client.Do req).2 }

/-- A client that has sent nothing yet and whose remote side answers every
request with `r`. -/
def Client.answering (r : DoResult) : Client :=
  ⟨fun _ => r, []⟩

/-- Membership of a byte in the class `[0-9A-F]`, as the matcher tests it. -/
def inUpperHex (c : Byte) : Bool :=
  [(ch '0', ch '9'), (ch 'A', ch 'F')].any (fun r => decide (r.1 ≤ c) && decide (c ≤ r.2))

/-- An uppercase hexadecimal digit: one of `0-9`, `A-F`. -/
def isUpperHex (b : Byte) : Prop :=
  (ch '0' ≤ b ∧ b ≤ ch '9') ∨ (ch 'A' ≤ b ∧ b ≤ ch 'F')

instance : DecidablePred isUpperHex := fun b => by
  unfold isUpperHex
  infer_instance

/-- The body contains the literal `<h2>Access Denied</h2>`. -/
def AccessDenied (body : GoString) : Prop :=
  ascii "<h2>Access Denied</h2>" <:+: body

/-- A match of `<p>Key: ([0-9A-F]+)</p>` in `body`: the text `<p>Key: k</p>`
stands right after `before`, where `k` is a nonempty string of uppercase
hexadecimal digits. -/
def KeyMatch (body before k after : GoString) : Prop :=
  body = before ++ ascii "<p>Key: " ++ k ++ ascii "</p>" ++ after ∧ k ≠ [] ∧ ∀ b ∈ k, isUpperHex b

instance : DecidablePred AccessDenied := fun body => by
  unfold AccessDenied
  infer_instance

/-- One setting `key=value` of an encoded form, both sides escaped. -/
def setting (key value : GoString) : GoString :=
  url.QueryEscape key ++ ch '=' :: url.QueryEscape value

/-- A session with token `s3ss10n` and cached key `0LD` whose client has
sent nothing yet and gets the answer `r` to every request. -/
def Community.answering (r : DoResult) : Community :=
  ⟨Client.answering r, ascii "s3ss10n", ascii "0LD"⟩

/-! ## Lemmas on the matcher -/

theorem run_str_append (l t : GoString) : (Regexp.str l).run (l ++ t) = [⟨t, []⟩] := by
  induction l with
  | nil => rfl
  | cons b l ih => simp [Regexp.str, Regexp.run, ih]

theorem mem_run_str {l s : GoString} {th : Thread} (h : th ∈ (Regexp.str l).run s) :
    s = l ++ th.rest ∧ th.groups = [] := by
  induction l generalizing s th with
  | nil =>
    simp [Regexp.str, Regexp.run] at h
    subst h; simp
  | cons b l ih =>
    cases s with
    | nil => simp [Regexp.str, Regexp.run] at h
    | cons c s =>
      simp only [Regexp.str, Regexp.run, List.mem_flatMap, List.mem_map] at h
      obtain ⟨t₁, h₁, t₂, h₂, rfl⟩ := h
      by_cases hc : c = b
      · simp [hc] at h₁
        subst h₁
        obtain ⟨e, g⟩ := ih h₂
        simp at e
        simp [hc, e, g]
      · simp [hc] at h₁

theorem run_str_cons_ne (b c : Byte) (l t : GoString) (h : c ≠ b) :
    (Regexp.str (b :: l)).run (c :: t) = [] := by
  simp [Regexp.str, Regexp.run, h]

theorem run_upperHex_cons (c : Byte) (t : GoString) :
    upperHexClass.run (c :: t) = if inUpperHex c then [⟨t, []⟩] else [] := rfl

theorem run_upperHex_nil : upperHexClass.run [] = [] := rfl

/-- Threads of the iteration of the class: each consumed a nonempty run of
class bytes and captured nothing. -/
theorem mem_plusLoop_upperHex {n : Nat} {s : GoString} {th : Thread}
    (h : th ∈ plusLoop upperHexClass.run n s) :
    ∃ k, k ≠ [] ∧ (∀ b ∈ k, inUpperHex b = true) ∧ s = k ++ th.rest ∧ th.groups = [] := by
  induction n generalizing s th with
  | zero => simp [plusLoop] at h
  | succ n ih =>
    cases s with
    | nil => simp [plusLoop, run_upperHex_nil] at h
    | cons c s =>
      simp only [plusLoop, run_upperHex_cons] at h
      by_cases hc : inUpperHex c = true
      · simp [hc] at h
        rcases h with h | h
        · obtain ⟨k, hk, hall, e, g⟩ := ih h
          refine ⟨c :: k, by simp, ?_, by simp [e], g⟩
          intro b hb
          rcases List.mem_cons.1 hb with rfl | hb
          · exact hc
          · exact hall b hb
        · subst h
          exact ⟨[c], by simp, by simpa using hc, by simp, rfl⟩
      · simp [hc] at h

theorem plusLoop_upperHex_stop (n : Nat) (x : Byte) (r : GoString) (hx : inUpperHex x = false) :
    plusLoop upperHexClass.run n (x :: r) = [] := by
  cases n with
  | zero => rfl
  | succ n => simp [plusLoop, run_upperHex_cons, hx]

/-- The iteration of the class before a byte outside the class: of all its
threads only the longest one survives a continuation that fails before class
bytes. -/
theorem plusLoop_upperHex_flatMap {β : Type} (F : Thread → List β)
    (hF : ∀ c r g, inUpperHex c = true → F ⟨c :: r, g⟩ = [])
    (k : GoString) (hk : k ≠ []) (hall : ∀ b ∈ k, inUpperHex b = true)
    (x : Byte) (r : GoString) (hx : inUpperHex x = false) (n : Nat)
    (hn : (k ++ x :: r).length < n) :
    (plusLoop upperHexClass.run n (k ++ x :: r)).flatMap F = F ⟨x :: r, []⟩ := by
  induction k generalizing n with
  | nil => exact absurd rfl hk
  | cons c k ih =>
    cases n with
    | zero => simp at hn
    | succ n =>
      have hc : inUpperHex c = true := hall c (by simp)
      simp only [List.cons_append, plusLoop, run_upperHex_cons, hc, if_true]
      simp only [List.flatMap_cons, List.flatMap_nil, List.append_nil, List.length_cons,
        Nat.lt_succ_self, if_true, List.flatMap_append]
      cases k with
      | nil =>
        simp [plusLoop_upperHex_stop _ _ _ hx]
      | cons c₂ k =>
        have h₂ : inUpperHex c₂ = true := hall c₂ (by simp)
        rw [ih (by simp) (fun b hb => hall b (List.mem_cons_of_mem _ hb)) n
          (by simpa using hn)]
        simp [hF c₂ _ _ h₂]

theorem inUpperHex_iff (b : Byte) : inUpperHex b = true ↔ isUpperHex b := by
  simp [inUpperHex, isUpperHex]

theorem run_cat (r₁ r₂ : Regexp) (s : GoString) :
    (Regexp.cat r₁ r₂).run s =
      (r₁.run s).flatMap fun t₁ =>
        (r₂.run t₁.rest).map fun t₂ => ⟨t₂.rest, t₁.groups ++ t₂.groups⟩ := rfl

theorem run_cap (r : Regexp) (s : GoString) :
    (Regexp.cap r).run s =
      (r.run s).map fun t => ⟨t.rest, s.take (s.length - t.rest.length) :: t.groups⟩ := rfl

theorem run_plus (r : Regexp) (s : GoString) :
    (Regexp.plus r).run s = plusLoop r.run (s.length + 1) s := rfl

/-- The group and the closing tag of the key pattern before a key. -/
theorem run_keyTail_of_key (k post : GoString) (hk : k ≠ [])
    (hall : ∀ b ∈ k, inUpperHex b = true) :
    (Regexp.cat (.cap (.plus upperHexClass)) (Regexp.str (ascii "</p>"))).run
      (k ++ ascii "</p>" ++ post) = [⟨post, [k]⟩] := by
  have hS : ascii "</p>" = ch '<' :: ascii "/p>" := by decide
  have hx : inUpperHex (ch '<') = false := by decide
  rw [run_cat, run_cap, run_plus, List.flatMap_map, List.append_assoc]
  have e : ascii "</p>" ++ post = ch '<' :: (ascii "/p>" ++ post) := by rw [hS]; rfl
  rw [e, plusLoop_upperHex_flatMap _ _ k hk hall (ch '<') _ hx _ (Nat.lt_succ_self _)]
  · rw [← e, run_str_append]
    simp
  · intro c r g hc
    have : c ≠ ch '<' := by
      rintro rfl
      rw [hx] at hc
      exact Bool.noConfusion hc
    simp [hS, run_str_cons_ne _ _ _ _ this]

/-- The key pattern at the start of an input, completely. -/
theorem run_keyRegExp_of_key (k post : GoString) (hk : k ≠ [])
    (hall : ∀ b ∈ k, inUpperHex b = true) :
    keyRegExp.run (ascii "<p>Key: " ++ k ++ ascii "</p>" ++ post) = [⟨post, [k]⟩] := by
  unfold keyRegExp
  rw [run_cat, List.append_assoc, List.append_assoc, run_str_append]
  simp only [List.flatMap_cons, List.flatMap_nil, List.append_nil, List.nil_append]
  rw [← List.append_assoc, run_keyTail_of_key k post hk hall]
  rfl

/-- Every thread of the key pattern has read a key. -/
theorem mem_run_keyRegExp {s : GoString} {th : Thread} (h : th ∈ keyRegExp.run s) :
    ∃ k, k ≠ [] ∧ (∀ b ∈ k, inUpperHex b = true) ∧
      s = ascii "<p>Key: " ++ k ++ ascii "</p>" ++ th.rest ∧ th.groups = [k] := by
  unfold keyRegExp at h
  simp only [run_cat, run_cap, run_plus, List.mem_flatMap, List.mem_map] at h
  obtain ⟨t₁, h₁, t₂, ⟨t₃, ⟨t₅, h₅, rfl⟩, t₄, h₄, rfl⟩, rfl⟩ := h
  obtain ⟨e₁, g₁⟩ := mem_run_str h₁
  obtain ⟨k, hk, hall, e₅, g₅⟩ := mem_plusLoop_upperHex h₅
  obtain ⟨e₄, g₄⟩ := mem_run_str h₄
  simp only at e₄ g₄ ⊢
  refine ⟨k, hk, hall, ?_, ?_⟩
  · rw [e₁, e₅, e₄]; simp
  · rw [g₁, g₅, g₄, e₅]; simp

theorem matchAt_eq_none (re : Regexp) (s : GoString) :
    re.matchAt s = none ↔ re.run s = [] := by
  unfold Regexp.matchAt
  cases re.run s <;> simp

theorem matchAt_of_run {re : Regexp} {s : GoString} {th : Thread} {ths : List Thread}
    (h : re.run s = th :: ths) :
    re.matchAt s = some (s.take (s.length - th.rest.length) :: th.groups) := by
  unfold Regexp.matchAt
  rw [h]

theorem find_cons (re : Regexp) (c : Byte) (s : GoString) :
    re.find (c :: s) = match re.matchAt (c :: s) with
      | some m => some m
      | none => re.find s := rfl

/-- No match anywhere: the pattern matches at no suffix of the input. -/
theorem find_eq_none_iff (re : Regexp) (s : GoString) :
    re.find s = none ↔ ∀ pre t, s = pre ++ t → re.run t = [] := by
  induction s with
  | nil =>
    simp only [Regexp.find, matchAt_eq_none]
    constructor
    · intro h pre t e
      have : t = [] := (List.append_eq_nil.1 e.symm).2
      rw [this]; exact h
    · intro h; exact h [] [] rfl
  | cons c s ih =>
    rw [find_cons]
    constructor
    · intro h pre t e
      cases hm : re.matchAt (c :: s) with
      | some m => rw [hm] at h; exact Option.noConfusion h
      | none =>
        rw [hm] at h
        cases pre with
        | nil =>
          rw [List.nil_append] at e
          rw [← matchAt_eq_none, ← e]; exact hm
        | cons p pre =>
          simp at e
          exact (ih.1 h) pre t e.2
    · intro h
      have h0 : re.matchAt (c :: s) = none := (matchAt_eq_none re _).2 (h [] _ rfl)
      rw [h0]
      exact ih.2 fun pre t e => h (c :: pre) t (by simp [e])

/-- The leftmost match: the pattern matches after `pre` and at no earlier
position. -/
theorem find_of_first (re : Regexp) (pre t : GoString) (th : Thread) (ths : List Thread)
    (h : re.run t = th :: ths)
    (hfirst : ∀ p₁ t₁, pre ++ t = p₁ ++ t₁ → p₁.length < pre.length → re.run t₁ = []) :
    re.find (pre ++ t) = some (t.take (t.length - th.rest.length) :: th.groups) := by
  induction pre with
  | nil =>
    cases t with
    | nil => exact matchAt_of_run h
    | cons c t => simp only [List.nil_append, find_cons, matchAt_of_run h]
  | cons p pre ih =>
    have h0 : re.matchAt (p :: (pre ++ t)) = none :=
      (matchAt_eq_none re _).2 (hfirst [] _ rfl (by simp))
    simp only [List.cons_append, find_cons, h0]
    apply ih
    intro p₁ t₁ e hl
    exact hfirst (p :: p₁) t₁ (by simp [e]) (by simpa using hl)

/-- A match found is the preferred match at some position of the input. -/
theorem find_eq_some {re : Regexp} {s : GoString} {m : List GoString} (h : re.find s = some m) :
    ∃ pre t th ths, s = pre ++ t ∧ re.run t = th :: ths ∧
      m = t.take (t.length - th.rest.length) :: th.groups := by
  induction s with
  | nil =>
    simp only [Regexp.find, Regexp.matchAt] at h
    cases hr : re.run [] with
    | nil => rw [hr] at h; exact Option.noConfusion h
    | cons th ths =>
      rw [hr] at h
      exact ⟨[], [], th, ths, rfl, hr, (Option.some.inj h).symm⟩
  | cons c s ih =>
    rw [find_cons] at h
    cases hm : re.matchAt (c :: s) with
    | some m₁ =>
      rw [hm] at h
      unfold Regexp.matchAt at hm
      cases hr : re.run (c :: s) with
      | nil => rw [hr] at hm; exact Option.noConfusion hm
      | cons th ths =>
        rw [hr] at hm
        refine ⟨[], c :: s, th, ths, rfl, hr, ?_⟩
        rw [← Option.some.inj h, ← Option.some.inj hm]
    | none =>
      rw [hm] at h
      obtain ⟨pre, t, th, ths, e, hr, em⟩ := ih h
      exact ⟨c :: pre, t, th, ths, by simp [e], hr, em⟩

theorem take_length_sub (a b : GoString) :
    (a ++ b).take ((a ++ b).length - b.length) = a := by
  simp

theorem match_accessDenied_iff (body : GoString) :
    (accessDeniedPattern.find body).isSome = true ↔ AccessDenied body := by
  unfold accessDeniedPattern
  constructor
  · intro h
    obtain ⟨m, hm⟩ := Option.isSome_iff_exists.1 h
    obtain ⟨pre, t, th, ths, e, hr, -⟩ := find_eq_some hm
    have hmem : th ∈ (Regexp.str (ascii "<h2>Access Denied</h2>")).run t := by rw [hr]; simp
    obtain ⟨et, -⟩ := mem_run_str hmem
    exact ⟨pre, th.rest, by rw [e, et, List.append_assoc]⟩
  · rintro ⟨pre, post, e⟩
    cases hf : (Regexp.str (ascii "<h2>Access Denied</h2>")).find body with
    | some m => rfl
    | none =>
      have := (find_eq_none_iff _ _).1 hf pre (ascii "<h2>Access Denied</h2>" ++ post)
        (by rw [← e, List.append_assoc])
      rw [run_str_append] at this
      exact List.noConfusion this

theorem find_keyRegExp_eq_some {body : GoString} {m : List GoString}
    (h : keyRegExp.find body = some m) :
    ∃ before k after, KeyMatch body before k after ∧
      m = [ascii "<p>Key: " ++ k ++ ascii "</p>", k] := by
  obtain ⟨pre, t, th, ths, e, hr, hm⟩ := find_eq_some h
  have hmem : th ∈ keyRegExp.run t := by rw [hr]; simp
  obtain ⟨k, hk, hall, et, g⟩ := mem_run_keyRegExp hmem
  refine ⟨pre, k, th.rest, ⟨?_, hk, fun b hb => (inUpperHex_iff b).1 (hall b hb)⟩, ?_⟩
  · rw [e, et]; simp
  · rw [hm, g, et]
    have := take_length_sub (ascii "<p>Key: " ++ k ++ ascii "</p>") th.rest
    rw [this]

theorem find_keyRegExp_eq_none (body : GoString)
    (h : ¬ ∃ before k after, KeyMatch body before k after) : keyRegExp.find body = none := by
  cases hf : keyRegExp.find body with
  | none => rfl
  | some m =>
    obtain ⟨before, k, after, hk, -⟩ := find_keyRegExp_eq_some hf
    exact absurd ⟨before, k, after, hk⟩ h

theorem find_keyRegExp_of_leftmost {body before k after : GoString}
    (h : KeyMatch body before k after)
    (hleft : ∀ before₁ k₁ after₁, KeyMatch body before₁ k₁ after₁ → before.length ≤ before₁.length) :
    keyRegExp.find body = some [ascii "<p>Key: " ++ k ++ ascii "</p>", k] := by
  obtain ⟨e, hk, hall⟩ := h
  have hall₁ : ∀ b ∈ k, inUpperHex b = true := fun b hb => (inUpperHex_iff b).2 (hall b hb)
  have hr := run_keyRegExp_of_key k after hk hall₁
  have e₁ : body = before ++ (ascii "<p>Key: " ++ k ++ ascii "</p>" ++ after) := by
    rw [e]; simp
  rw [e₁, find_of_first keyRegExp before _ _ _ hr]
  · have := take_length_sub (ascii "<p>Key: " ++ k ++ ascii "</p>") after
    simp only [this]
  · intro p₁ t₁ e₂ hl
    cases hrun : keyRegExp.run t₁ with
    | nil => rfl
    | cons th ths =>
      have hmem : th ∈ keyRegExp.run t₁ := by rw [hrun]; simp
      obtain ⟨k₁, hk₁, hall₁, et, -⟩ := mem_run_keyRegExp hmem
      have := hleft p₁ k₁ th.rest
        ⟨by rw [e₁, e₂, et]; simp, hk₁, fun b hb => (inUpperHex_iff b).1 (hall₁ b hb)⟩
      omega

theorem getWebAPIKey_fail (community : Community) (resp : Option Response) (e : Error)
    (h : community.client.respond getRequest = .fail resp e) :
    community.GetWebAPIKey = ([], some e, community.afterDo getRequest) := by
  unfold getRequest at h
  simp [Community.GetWebAPIKey, http.NewRequest, Client.Do, h, Community.afterDo, getRequest]

theorem getWebAPIKey_readErr (community : Community) (status : Int) (data : GoString) (e : Error)
    (h : community.client.respond getRequest = .ok ⟨status, ⟨data, some e⟩⟩) :
    community.GetWebAPIKey = ([], some e, community.afterDo getRequest) := by
  unfold getRequest at h
  simp [Community.GetWebAPIKey, http.NewRequest, Client.Do, h, Community.afterDo, getRequest,
    ioutil.ReadAll]

theorem getWebAPIKey_read (community : Community) (status : Int) (body : GoString)
    (h : community.client.respond getRequest = .ok ⟨status, ⟨body, none⟩⟩) :
    community.GetWebAPIKey =
      if (accessDeniedPattern.find body).isSome then
        ([], some .ErrAccessDenied, community.afterDo getRequest)
      else if (keyRegExp.FindStringSubmatch body).length ≤ 1 then
        ([], some .ErrKeyNotFound, community.afterDo getRequest)
      else
        ((keyRegExp.FindStringSubmatch body).getD 1 [], none,
          { community.afterDo getRequest with apiKey := (keyRegExp.FindStringSubmatch body).getD 1 [] }) := by
  unfold getRequest at h
  simp [Community.GetWebAPIKey, http.NewRequest, Client.Do, h, Community.afterDo, getRequest,
    ioutil.ReadAll, regexp.Match]

/-! ## Lemmas on the operations -/

theorem registerWebAPIKey_eq (community : Community) (domain : GoString) :
    community.RegisterWebAPIKey domain =
      match community.client.respond (registerRequest community.sessionID domain) with
      | .fail _ err => (some err, community.afterDo (registerRequest community.sessionID domain))
      | .ok resp =>
        if resp.StatusCode ≠ http.StatusOK then
          (some .ErrCannotRegisterKey, community.afterDo (registerRequest community.sessionID domain))
        else (none, community.afterDo (registerRequest community.sessionID domain)) := rfl

theorem revokeWebAPIKey_eq (community : Community) :
    community.RevokeWebAPIKey =
      match community.client.respond (revokeRequest community.sessionID) with
      | .fail _ err => (some err, community.afterDo (revokeRequest community.sessionID))
      | .ok resp =>
        if resp.StatusCode ≠ http.StatusOK then
          (some .ErrCannotRevokeKey, community.afterDo (revokeRequest community.sessionID))
        else (none, community.afterDo (revokeRequest community.sessionID)) := rfl

theorem not_keyMatch_of_find_eq_none {body : GoString} (h : keyRegExp.find body = none) :
    ¬ ∃ before k after, KeyMatch body before k after := by
  rintro ⟨before, k, after, e, hk, hall⟩
  have := (find_eq_none_iff _ _).1 h before (ascii "<p>Key: " ++ k ++ ascii "</p>" ++ after)
    (by rw [e]; simp)
  rw [run_keyRegExp_of_key k after hk fun b hb => (inUpperHex_iff b).2 (hall b hb)] at this
  exact List.noConfusion this

/-! ## Lemmas on the encoding of forms -/

set_option maxRecDepth 100000 in
theorem escapeByte_keep : ∀ c : Byte, shouldEscape c = false →
    c ≠ ch '%' ∧ c ≠ ch '+' ∧ c ≠ ch '&' ∧ c ≠ ch '=' ∧ c ≠ ch ';' := by
  decide

set_option maxRecDepth 100000 in
theorem unhex_upperhex : ∀ c : Byte,
    ishex (upperhex.getD (c.val >>> 4) 0) = true ∧ ishex (upperhex.getD (c.val &&& 15) 0) = true ∧
      (unhex (upperhex.getD (c.val >>> 4) 0) <<< 4 ||| unhex (upperhex.getD (c.val &&& 15) 0)) = c ∧
      ishex (upperhex.getD (c.val >>> 4) 0) = true := by
  decide

set_option maxRecDepth 100000 in
theorem escapeByte_all_no_separator : ∀ c : Byte,
    (escapeByte c).all (fun b => decide (b ≠ ch '&' ∧ b ≠ ch '=' ∧ b ≠ ch ';')) = true := by
  decide

theorem escapeByte_no_separator (c : Byte) : ∀ b ∈ escapeByte c,
    b ≠ ch '&' ∧ b ≠ ch '=' ∧ b ≠ ch ';' := by
  intro b hb
  exact of_decide_eq_true (List.all_eq_true.1 (escapeByte_all_no_separator c) b hb)

theorem queryUnescape_percent (a b : Byte) (r : GoString) (ha : ishex a = true)
    (hb : ishex b = true) :
    url.QueryUnescape (ch '%' :: a :: b :: r) =
      (url.QueryUnescape r).map fun t => (unhex a <<< 4 ||| unhex b) :: t := by
  rw [url.QueryUnescape]
  simp [ha, hb]

theorem queryUnescape_plus (r : GoString) :
    url.QueryUnescape (ch '+' :: r) = (url.QueryUnescape r).map fun t => ch ' ' :: t := by
  have h : ch '+' ≠ ch '%' := by decide
  rcases r with _ | ⟨a, _ | ⟨b, r⟩⟩ <;> simp [url.QueryUnescape, h]

theorem queryUnescape_other (c : Byte) (r : GoString) (h₁ : c ≠ ch '%') (h₂ : c ≠ ch '+') :
    url.QueryUnescape (c :: r) = (url.QueryUnescape r).map fun t => c :: t := by
  rcases r with _ | ⟨a, _ | ⟨b, r⟩⟩ <;> simp [url.QueryUnescape, h₁, h₂]

theorem queryUnescape_escapeByte (c : Byte) (r : GoString) :
    url.QueryUnescape (escapeByte c ++ r) = (url.QueryUnescape r).map fun t => c :: t := by
  unfold escapeByte
  by_cases h : shouldEscape c = true
  · rw [if_pos h]
    by_cases hs : c = ch ' '
    · rw [if_pos hs, hs]
      exact queryUnescape_plus r
    · rw [if_neg hs]
      obtain ⟨h₁, h₂, h₃, -⟩ := unhex_upperhex c
      have := queryUnescape_percent _ _ r h₁ h₂
      rw [h₃] at this
      exact this
  · have h₀ : shouldEscape c = false := by simpa using h
    obtain ⟨h₁, h₂, -⟩ := escapeByte_keep c h₀
    rw [if_neg h]
    exact queryUnescape_other c r h₁ h₂

theorem queryEscape_cons (c : Byte) (s : GoString) :
    url.QueryEscape (c :: s) = escapeByte c ++ url.QueryEscape s := rfl

/-- Unescaping undoes escaping. -/
theorem queryUnescape_queryEscape (s : GoString) :
    url.QueryUnescape (url.QueryEscape s) = .ok s := by
  induction s with
  | nil => rfl
  | cons c s ih => rw [queryEscape_cons, queryUnescape_escapeByte, ih]; rfl

theorem queryEscape_no_separator (s : GoString) :
    ∀ b ∈ url.QueryEscape s, b ≠ ch '&' ∧ b ≠ ch '=' ∧ b ≠ ch ';' := by
  intro b hb
  obtain ⟨c, -, hc⟩ := List.mem_flatMap.1 hb
  exact escapeByte_no_separator c b hc

theorem cut_append (sep : Byte) (a r : GoString) (ha : ∀ b ∈ a, b ≠ sep) :
    cut sep (a ++ sep :: r) = (a, r) := by
  induction a with
  | nil => simp [cut]
  | cons c a ih =>
    have hc : c ≠ sep := ha c (by simp)
    simp [cut, hc, ih fun b hb => ha b (List.mem_cons_of_mem _ hb)]

theorem splitOn_of_not_mem (sep : Byte) (a : GoString) (ha : ∀ b ∈ a, b ≠ sep) :
    splitOn sep a = [a] := by
  induction a with
  | nil => rfl
  | cons c a ih =>
    have hc : c ≠ sep := ha c (by simp)
    simp [splitOn, hc, ih fun b hb => ha b (List.mem_cons_of_mem _ hb)]

theorem splitOn_append (sep : Byte) (a r : GoString) (ha : ∀ b ∈ a, b ≠ sep) :
    splitOn sep (a ++ sep :: r) = a :: splitOn sep r := by
  induction a with
  | nil => simp [splitOn]
  | cons c a ih =>
    have hc : c ≠ sep := ha c (by simp)
    simp [splitOn, hc, ih fun b hb => ha b (List.mem_cons_of_mem _ hb)]

/-- The setting `key=value`, escaped, adds `value` to the values of `key`. -/
theorem parseSetting_escaped (acc : url.Values × Option Error) (key value : GoString) :
    parseSetting acc (url.QueryEscape key ++ ch '=' :: url.QueryEscape value) =
      (acc.1.add key value, acc.2) := by
  have hsemi : ¬ ch ';' ∈ url.QueryEscape key ++ ch '=' :: url.QueryEscape value := by
    intro h
    rcases List.mem_append.1 h with h | h
    · exact (queryEscape_no_separator key _ h).2.2 rfl
    · rcases List.mem_cons.1 h with h | h
      · exact absurd h (by decide)
      · exact (queryEscape_no_separator value _ h).2.2 rfl
  have hne : url.QueryEscape key ++ ch '=' :: url.QueryEscape value ≠ [] := by simp
  unfold parseSetting
  rw [if_neg hsemi, if_neg hne,
    cut_append _ _ _ fun b hb => (queryEscape_no_separator key b hb).2.1]
  simp only [queryUnescape_queryEscape]

theorem encode_register (sessionID domain : GoString) :
    url.Values.Encode
      [(ascii "domain", [domain]),
       (ascii "agreeToTerms", [ascii "agreed"]),
       (ascii "sessionid", [sessionID]),
       (ascii "Submit", [ascii "Register"])] =
    setting (ascii "Submit") (ascii "Register") ++ ch '&' ::
      (setting (ascii "agreeToTerms") (ascii "agreed") ++ ch '&' ::
        (setting (ascii "domain") domain ++ ch '&' ::
          setting (ascii "sessionid") sessionID)) := by
  have hs : sortKeys [ascii "domain", ascii "agreeToTerms", ascii "sessionid", ascii "Submit"]
      = [ascii "Submit", ascii "agreeToTerms", ascii "domain", ascii "sessionid"] := by decide
  have h₁ : ∀ v₁ v₂ v₃ v₄ : List GoString, List.lookup (ascii "Submit")
      [(ascii "domain", v₁), (ascii "agreeToTerms", v₂), (ascii "sessionid", v₃),
        (ascii "Submit", v₄)] = some v₄ := fun _ _ _ _ => rfl
  have h₂ : ∀ v₁ v₂ v₃ v₄ : List GoString, List.lookup (ascii "agreeToTerms")
      [(ascii "domain", v₁), (ascii "agreeToTerms", v₂), (ascii "sessionid", v₃),
        (ascii "Submit", v₄)] = some v₂ := fun _ _ _ _ => rfl
  have h₃ : ∀ v₁ v₂ v₃ v₄ : List GoString, List.lookup (ascii "domain")
      [(ascii "domain", v₁), (ascii "agreeToTerms", v₂), (ascii "sessionid", v₃),
        (ascii "Submit", v₄)] = some v₁ := fun _ _ _ _ => rfl
  have h₄ : ∀ v₁ v₂ v₃ v₄ : List GoString, List.lookup (ascii "sessionid")
      [(ascii "domain", v₁), (ascii "agreeToTerms", v₂), (ascii "sessionid", v₃),
        (ascii "Submit", v₄)] = some v₃ := fun _ _ _ _ => rfl
  unfold url.Values.Encode
  simp only [List.map, hs, List.foldl, h₁, h₂, h₃, h₄, Option.getD_some, List.length_cons,
    List.length_nil, setting]
  simp

theorem encode_revoke (sessionID : GoString) :
    url.Values.Encode
      [(ascii "revoke", [ascii "Revoke My Steam Web API Key"]),
       (ascii "sessionid", [sessionID])] =
    setting (ascii "revoke") (ascii "Revoke My Steam Web API Key") ++ ch '&' ::
      setting (ascii "sessionid") sessionID := by
  have hs : sortKeys [ascii "revoke", ascii "sessionid"] = [ascii "revoke", ascii "sessionid"] := by
    decide
  have h₁ : ∀ v₁ v₂ : List GoString, List.lookup (ascii "revoke")
      [(ascii "revoke", v₁), (ascii "sessionid", v₂)] = some v₁ := fun _ _ => rfl
  have h₂ : ∀ v₁ v₂ : List GoString, List.lookup (ascii "sessionid")
      [(ascii "revoke", v₁), (ascii "sessionid", v₂)] = some v₂ := fun _ _ => rfl
  unfold url.Values.Encode
  simp only [List.map, hs, List.foldl, h₁, h₂, Option.getD_some, List.length_cons,
    List.length_nil, setting]
  simp

theorem setting_no_amp (key value : GoString) : ∀ b ∈ setting key value, b ≠ ch '&' := by
  intro b hb
  rcases List.mem_append.1 hb with h | h
  · exact (queryEscape_no_separator key b h).1
  · rcases List.mem_cons.1 h with h | h
    · rw [h]; decide
    · exact (queryEscape_no_separator value b h).1

theorem parseSetting_setting (acc : url.Values × Option Error) (key value : GoString) :
    parseSetting acc (setting key value) = (acc.1.add key value, acc.2) :=
  parseSetting_escaped acc key value

theorem parseQuery_register (sessionID domain : GoString) :
    url.ParseQuery (setting (ascii "Submit") (ascii "Register") ++ ch '&' ::
      (setting (ascii "agreeToTerms") (ascii "agreed") ++ ch '&' ::
        (setting (ascii "domain") domain ++ ch '&' ::
          setting (ascii "sessionid") sessionID))) =
      ([(ascii "Submit", [ascii "Register"]), (ascii "agreeToTerms", [ascii "agreed"]),
        (ascii "domain", [domain]), (ascii "sessionid", [sessionID])], none) := by
  have n₁ : ascii "Submit" ≠ ascii "agreeToTerms" := by decide
  have n₂ : ascii "Submit" ≠ ascii "domain" := by decide
  have n₃ : ascii "Submit" ≠ ascii "sessionid" := by decide
  have n₄ : ascii "agreeToTerms" ≠ ascii "domain" := by decide
  have n₅ : ascii "agreeToTerms" ≠ ascii "sessionid" := by decide
  have n₆ : ascii "domain" ≠ ascii "sessionid" := by decide
  unfold url.ParseQuery
  rw [if_neg (by simp), splitOn_append _ _ _ (setting_no_amp _ _),
    splitOn_append _ _ _ (setting_no_amp _ _), splitOn_append _ _ _ (setting_no_amp _ _),
    splitOn_of_not_mem _ _ (setting_no_amp _ _)]
  simp only [List.foldl, parseSetting_setting, url.Values.add, if_neg n₁, if_neg n₂, if_neg n₃,
    if_neg n₄, if_neg n₅, if_neg n₆]

theorem parseQuery_revoke (sessionID : GoString) :
    url.ParseQuery (setting (ascii "revoke") (ascii "Revoke My Steam Web API Key") ++ ch '&' ::
      setting (ascii "sessionid") sessionID) =
      ([(ascii "revoke", [ascii "Revoke My Steam Web API Key"]),
        (ascii "sessionid", [sessionID])], none) := by
  have n₁ : ascii "revoke" ≠ ascii "sessionid" := by decide
  unfold url.ParseQuery
  rw [if_neg (by simp), splitOn_append _ _ _ (setting_no_amp _ _),
    splitOn_of_not_mem _ _ (setting_no_amp _ _)]
  simp only [List.foldl, parseSetting_setting, url.Values.add, if_neg n₁]


/-! ## The definitions on concrete inputs -/

theorem findStringSubmatch_example :
    keyRegExp.FindStringSubmatch (ascii "<p>Key: </p><p>Key: 12ab</p><p>Key: 0F<p>Key: 9A</p>") =
      [ascii "<p>Key: 9A</p>", ascii "9A"] := by
  decide

theorem registerRequest_example :
    (registerRequest (ascii "a b&c=d") (ascii "example.com/~x")).Body =
      some (ascii "Submit=Register&agreeToTerms=agreed&domain=example.com%2F~x&sessionid=a+b%26c%3Dd") := by
  decide

theorem revokeRequest_example :
    (revokeRequest (ascii "0123abcd")).Body =
      some (ascii "revoke=Revoke+My+Steam+Web+API+Key&sessionid=0123abcd") := by
  decide

theorem parseQuery_example :
    url.ParseQuery (ascii "a=1&b=%2f+x&a=2&&c") =
      ([(ascii "a", [ascii "1", ascii "2"]), (ascii "b", [ascii "/ x"]), (ascii "c", [[]])], none) := by
  decide

/-! ## The properties of the operations -/

/-- C1: when `GetWebAPIKey` receives a response whose body is read without
error and contains the literal `<h2>Access Denied</h2>`, it returns the empty
key and `ErrAccessDenied`, for every status code and whatever else the body
contains (a key paragraph before or after the marker included). -/
theorem getWebAPIKey_access_denied (community : Community) (status : Int) (body : GoString)
    (hresp : community.client.respond getRequest = .ok ⟨status, ⟨body, none⟩⟩)
    (hdenied : AccessDenied body) :
    community.GetWebAPIKey.1 = [] ∧ community.GetWebAPIKey.2.1 = some Error.ErrAccessDenied := by
  rw [getWebAPIKey_read community status body hresp, if_pos ((match_accessDenied_iff body).2 hdenied)]
  exact ⟨rfl, rfl⟩

/-- C1 at status 200 and a body with a key paragraph on each side of the
marker. -/
theorem getWebAPIKey_access_denied_witness :
    AccessDenied (ascii "<p>Key: 1A2B</p><h2>Access Denied</h2><p>Key: 3C4D</p>") ∧
      (Community.answering (.ok ⟨200,
        ⟨ascii "<p>Key: 1A2B</p><h2>Access Denied</h2><p>Key: 3C4D</p>", none⟩⟩)).GetWebAPIKey.1
        = [] ∧
      (Community.answering (.ok ⟨200,
        ⟨ascii "<p>Key: 1A2B</p><h2>Access Denied</h2><p>Key: 3C4D</p>", none⟩⟩)).GetWebAPIKey.2.1
        = some Error.ErrAccessDenied :=
  ⟨by decide, getWebAPIKey_access_denied _ 200 _ rfl (by decide)⟩

/-- C2: when `GetWebAPIKey` receives a response, of any status, whose body is
read without error, does not contain `<h2>Access Denied</h2>` and has a match
of `<p>Key: ([0-9A-F]+)</p>`, it returns no error and the hexadecimal string
`k` of the leftmost match, and the cached key of the session is `k`
afterwards. -/
theorem getWebAPIKey_key (community : Community) (status : Int) (body before k after : GoString)
    (hresp : community.client.respond getRequest = .ok ⟨status, ⟨body, none⟩⟩)
    (hdenied : ¬ AccessDenied body)
    (hkey : KeyMatch body before k after)
    (hleft : ∀ before₁ k₁ after₁, KeyMatch body before₁ k₁ after₁ → before.length ≤ before₁.length) :
    community.GetWebAPIKey.1 = k ∧ community.GetWebAPIKey.2.1 = none ∧
      community.GetWebAPIKey.2.2.apiKey = k := by
  have hd : ¬ (accessDeniedPattern.find body).isSome = true :=
    fun h => hdenied ((match_accessDenied_iff body).1 h)
  rw [getWebAPIKey_read community status body hresp, if_neg hd]
  simp [Regexp.FindStringSubmatch, find_keyRegExp_of_leftmost hkey hleft]

set_option maxRecDepth 4000 in
/-- C2 on the body `...<p>Key: 1A2B3C4D5E6F7890</p>...`: the key returned and
cached is `1A2B3C4D5E6F7890`. -/
theorem getWebAPIKey_key_witness :
    KeyMatch (ascii "...<p>Key: 1A2B3C4D5E6F7890</p>...") (ascii "...") (ascii "1A2B3C4D5E6F7890")
        (ascii "...") ∧
      (Community.answering (.ok ⟨200,
        ⟨ascii "...<p>Key: 1A2B3C4D5E6F7890</p>...", none⟩⟩)).GetWebAPIKey.1
        = ascii "1A2B3C4D5E6F7890" ∧
      (Community.answering (.ok ⟨200,
        ⟨ascii "...<p>Key: 1A2B3C4D5E6F7890</p>...", none⟩⟩)).GetWebAPIKey.2.1 = none ∧
      (Community.answering (.ok ⟨200,
        ⟨ascii "...<p>Key: 1A2B3C4D5E6F7890</p>...", none⟩⟩)).GetWebAPIKey.2.2.apiKey
        = ascii "1A2B3C4D5E6F7890" :=
  ⟨⟨by decide, by decide, by decide⟩,
   getWebAPIKey_key _ 200 _ (ascii "...") _ (ascii "...") rfl (by decide)
    ⟨by decide, by decide, by decide⟩
    (by
      intro b k a h
      have e := h.1
      have e₀ : ascii "...<p>Key: 1A2B3C4D5E6F7890</p>..." =
          ch '.' :: ch '.' :: ch '.' :: ascii "<p>Key: 1A2B3C4D5E6F7890</p>..." := rfl
      have e₁ : ascii "<p>Key: " = ch '<' :: ascii "p>Key: " := rfl
      have hne : ch '.' ≠ ch '<' := by decide
      rw [e₀, e₁] at e
      rcases b with _ | ⟨b₁, _ | ⟨b₂, _ | ⟨b₃, b⟩⟩⟩
      · simp at e; exact absurd e.1 hne
      · simp at e; exact absurd e.2.1 hne
      · simp at e; exact absurd e.2.2.1 hne
      · simp [ascii])⟩

/-- C3: when `GetWebAPIKey` receives a response, of any status, whose body is
read without error and contains neither `<h2>Access Denied</h2>` nor a match
of `<p>Key: ([0-9A-F]+)</p>`, it returns the empty key and `ErrKeyNotFound`. -/
theorem getWebAPIKey_not_found (community : Community) (status : Int) (body : GoString)
    (hresp : community.client.respond getRequest = .ok ⟨status, ⟨body, none⟩⟩)
    (hdenied : ¬ AccessDenied body)
    (hkey : ¬ ∃ before k after, KeyMatch body before k after) :
    community.GetWebAPIKey.1 = [] ∧ community.GetWebAPIKey.2.1 = some Error.ErrKeyNotFound := by
  have hd : ¬ (accessDeniedPattern.find body).isSome = true :=
    fun h => hdenied ((match_accessDenied_iff body).1 h)
  rw [getWebAPIKey_read community status body hresp, if_neg hd]
  simp [Regexp.FindStringSubmatch, find_keyRegExp_eq_none body hkey]

/-- C3 on the empty body, on a key paragraph with lowercase digits and on a
key paragraph without digits. -/
theorem getWebAPIKey_not_found_witness :
    ((Community.answering (.ok ⟨200, ⟨[], none⟩⟩)).GetWebAPIKey.1 = [] ∧
      (Community.answering (.ok ⟨200, ⟨[], none⟩⟩)).GetWebAPIKey.2.1
        = some Error.ErrKeyNotFound) ∧
    ((Community.answering (.ok ⟨200, ⟨ascii "<p>Key: 1a2b3c</p>", none⟩⟩)).GetWebAPIKey.1 = [] ∧
      (Community.answering (.ok ⟨200, ⟨ascii "<p>Key: 1a2b3c</p>", none⟩⟩)).GetWebAPIKey.2.1
        = some Error.ErrKeyNotFound) ∧
    ((Community.answering (.ok ⟨404, ⟨ascii "<p>Key: </p>", none⟩⟩)).GetWebAPIKey.1 = [] ∧
      (Community.answering (.ok ⟨404, ⟨ascii "<p>Key: </p>", none⟩⟩)).GetWebAPIKey.2.1
        = some Error.ErrKeyNotFound) :=
  ⟨getWebAPIKey_not_found _ 200 [] rfl (by decide) (not_keyMatch_of_find_eq_none (by decide)),
   getWebAPIKey_not_found _ 200 (ascii "<p>Key: 1a2b3c</p>") rfl (by decide)
    (not_keyMatch_of_find_eq_none (by decide)),
   getWebAPIKey_not_found _ 404 (ascii "<p>Key: </p>") rfl (by decide)
    (not_keyMatch_of_find_eq_none (by decide))⟩

/-- C4: when the client returns a response to `RegisterWebAPIKey` without a
transport error, the result is nil if the status code is 200 and
`ErrCannotRegisterKey` for every other status code, for every domain; it is a
function of the status code alone, so does not depend on the body. -/
theorem registerWebAPIKey_status (community : Community) (domain : GoString) (resp : Response)
    (hresp : community.client.respond (registerRequest community.sessionID domain) = .ok resp) :
    (community.RegisterWebAPIKey domain).1 =
        (if resp.StatusCode = 200 then none else some Error.ErrCannotRegisterKey) ∧
      ((community.RegisterWebAPIKey domain).1 = none ↔ resp.StatusCode = 200) := by
  rw [registerWebAPIKey_eq, hresp]
  by_cases h : resp.StatusCode = 200 <;> simp [h, http.StatusOK]

/-- C4 at status 403: the result is `ErrCannotRegisterKey`. -/
theorem registerWebAPIKey_status_witness :
    ((Community.answering (.ok ⟨403, ⟨ascii "<h2>Access Denied</h2>", none⟩⟩)).RegisterWebAPIKey
      (ascii "example.com")).1 = some Error.ErrCannotRegisterKey :=
  (registerWebAPIKey_status (Community.answering (.ok ⟨403, ⟨ascii "<h2>Access Denied</h2>", none⟩⟩))
    (ascii "example.com") ⟨403, ⟨ascii "<h2>Access Denied</h2>", none⟩⟩ rfl).1

/-- C5: when the client returns a response to `RevokeWebAPIKey` without a
transport error, the result is nil if the status code is 200 and
`ErrCannotRevokeKey` for every other status code, never
`ErrCannotRegisterKey`; it is a function of the status code alone. -/
theorem revokeWebAPIKey_status (community : Community) (resp : Response)
    (hresp : community.client.respond (revokeRequest community.sessionID) = .ok resp) :
    community.RevokeWebAPIKey.1 =
        (if resp.StatusCode = 200 then none else some Error.ErrCannotRevokeKey) ∧
      (community.RevokeWebAPIKey.1 = none ↔ resp.StatusCode = 200) ∧
      community.RevokeWebAPIKey.1 ≠ some Error.ErrCannotRegisterKey := by
  rw [revokeWebAPIKey_eq, hresp]
  by_cases h : resp.StatusCode = 200 <;> simp [h, http.StatusOK]

/-- C5 at status 500: the result is `ErrCannotRevokeKey`. -/
theorem revokeWebAPIKey_status_witness :
    (Community.answering (.ok ⟨500, ⟨[], none⟩⟩)).RevokeWebAPIKey.1
      = some Error.ErrCannotRevokeKey :=
  (revokeWebAPIKey_status (Community.answering (.ok ⟨500, ⟨[], none⟩⟩)) ⟨500, ⟨[], none⟩⟩ rfl).1

/-- C6: the cached key is written only by a successful `GetWebAPIKey`: after
a `GetWebAPIKey` that returns an error, and after every `RegisterWebAPIKey`
and `RevokeWebAPIKey`, the cached key is what it was before the call, for
every session and every answer of the client. -/
theorem apiKey_written_only_by_successful_get (community : Community) (domain : GoString) :
    (community.GetWebAPIKey.2.1 ≠ none → community.GetWebAPIKey.2.2.apiKey = community.apiKey) ∧
      (community.RegisterWebAPIKey domain).2.apiKey = community.apiKey ∧
      community.RevokeWebAPIKey.2.apiKey = community.apiKey := by
  refine ⟨?_, ?_, ?_⟩
  · cases h : community.client.respond getRequest with
    | fail resp e => rw [getWebAPIKey_fail community resp e h]; intro _; rfl
    | ok resp =>
      obtain ⟨status, ⟨body, err⟩⟩ := resp
      cases err with
      | some e => rw [getWebAPIKey_readErr community status body e h]; intro _; rfl
      | none =>
        rw [getWebAPIKey_read community status body h]
        split
        · intro _; rfl
        · split
          · intro _; rfl
          · intro hne; exact absurd rfl hne
  · rw [registerWebAPIKey_eq]
    split
    · rfl
    · split <;> rfl
  · rw [revokeWebAPIKey_eq]
    split
    · rfl
    · split <;> rfl

/-- C6 on the body `<h2>Access Denied</h2>`: the cached key `0LD` stays. -/
theorem apiKey_written_only_by_successful_get_witness :
    (Community.answering (.ok ⟨200, ⟨ascii "<h2>Access Denied</h2>", none⟩⟩)).GetWebAPIKey.2.2.apiKey
      = ascii "0LD" :=
  (apiKey_written_only_by_successful_get
    (Community.answering (.ok ⟨200, ⟨ascii "<h2>Access Denied</h2>", none⟩⟩)) []).1 (by decide)

/-- C7: an error `e` of the client comes first. When `Do` returns `e`, with or
without a response, `RegisterWebAPIKey` and `RevokeWebAPIKey` return `e` and
`GetWebAPIKey` returns the empty key and `e`. And in `GetWebAPIKey` access
denied comes before key not found: a body with the marker and without a key
gives `ErrAccessDenied`. -/
theorem transport_error_first (community : Community) (domain : GoString)
    (resp : Option Response) (e : Error) :
    (community.client.respond (registerRequest community.sessionID domain) = .fail resp e →
        (community.RegisterWebAPIKey domain).1 = some e) ∧
      (community.client.respond (revokeRequest community.sessionID) = .fail resp e →
        community.RevokeWebAPIKey.1 = some e) ∧
      (community.client.respond getRequest = .fail resp e →
        community.GetWebAPIKey.1 = [] ∧ community.GetWebAPIKey.2.1 = some e) ∧
      (∀ status body, community.client.respond getRequest = .ok ⟨status, ⟨body, none⟩⟩ →
        AccessDenied body → (¬ ∃ before k after, KeyMatch body before k after) →
        community.GetWebAPIKey.2.1 = some Error.ErrAccessDenied) := by
  refine ⟨?_, ?_, ?_, ?_⟩
  · intro h; rw [registerWebAPIKey_eq, h]
  · intro h; rw [revokeWebAPIKey_eq, h]
  · intro h; rw [getWebAPIKey_fail community resp e h]; exact ⟨rfl, rfl⟩
  · intro status body h hd _
    rw [getWebAPIKey_read community status body h, if_pos ((match_accessDenied_iff body).2 hd)]

/-- C7 for an error that a response with status 403 and a key in its body
accompanies, and for the body `<h2>Access Denied</h2>`. -/
theorem transport_error_first_witness :
    ((Community.answering (.fail (some ⟨403, ⟨ascii "<p>Key: 1A</p>", none⟩⟩) (.other 7))).RegisterWebAPIKey
        (ascii "example.com")).1 = some (Error.other 7) ∧
      (Community.answering (.fail (some ⟨403, ⟨ascii "<p>Key: 1A</p>", none⟩⟩) (.other 7))).RevokeWebAPIKey.1
        = some (Error.other 7) ∧
      ((Community.answering (.fail (some ⟨403, ⟨ascii "<p>Key: 1A</p>", none⟩⟩) (.other 7))).GetWebAPIKey.1
        = [] ∧
        (Community.answering (.fail (some ⟨403, ⟨ascii "<p>Key: 1A</p>", none⟩⟩) (.other 7))).GetWebAPIKey.2.1
        = some (Error.other 7)) ∧
      (Community.answering (.ok ⟨200, ⟨ascii "<h2>Access Denied</h2>", none⟩⟩)).GetWebAPIKey.2.1
        = some Error.ErrAccessDenied :=
  ⟨(transport_error_first _ (ascii "example.com") _ _).1 rfl,
   (transport_error_first _ [] _ _).2.1 rfl,
   (transport_error_first _ [] _ _).2.2.1 rfl,
   (transport_error_first _ [] none (.other 0)).2.2.2 200 (ascii "<h2>Access Denied</h2>") rfl
    (by decide) (not_keyMatch_of_find_eq_none (by decide))⟩

/-- C8: `GetWebAPIKey` is idempotent against an unchanged remote side: when a
call succeeds and the next call, made with a client that receives the same
response, follows it, the next call succeeds too with the same key and leaves
the cached key and the session token as the first call left them. -/
theorem getWebAPIKey_idempotent (community : Community) (client₂ : Client)
    (hsame : client₂.respond getRequest = community.client.respond getRequest)
    (hfirst : community.GetWebAPIKey.2.1 = none) :
    (Community.GetWebAPIKey { community.GetWebAPIKey.2.2 with client := client₂ }).2.1 = none ∧
      (Community.GetWebAPIKey { community.GetWebAPIKey.2.2 with client := client₂ }).1
        = community.GetWebAPIKey.1 ∧
      (Community.GetWebAPIKey { community.GetWebAPIKey.2.2 with client := client₂ }).2.2.apiKey
        = community.GetWebAPIKey.2.2.apiKey ∧
      (Community.GetWebAPIKey { community.GetWebAPIKey.2.2 with client := client₂ }).2.2.sessionID
        = community.GetWebAPIKey.2.2.sessionID := by
  cases h : community.client.respond getRequest with
  | fail resp e =>
    rw [getWebAPIKey_fail community resp e h] at hfirst
    exact Option.noConfusion hfirst
  | ok resp =>
    obtain ⟨status, ⟨body, err⟩⟩ := resp
    cases err with
    | some e =>
      rw [getWebAPIKey_readErr community status body e h] at hfirst
      exact Option.noConfusion hfirst
    | none =>
      have h₂ : ∀ c : Community, (Community.client { c with client := client₂ }).respond getRequest
          = .ok ⟨status, ⟨body, none⟩⟩ := fun c => by rw [← h, ← hsame]
      rw [getWebAPIKey_read _ status body (h₂ _)]
      rw [getWebAPIKey_read community status body h] at hfirst ⊢
      by_cases hd : (accessDeniedPattern.find body).isSome = true
      · rw [if_pos hd] at hfirst; exact Option.noConfusion hfirst
      · rw [if_neg hd] at hfirst ⊢
        by_cases hl : (keyRegExp.FindStringSubmatch body).length ≤ 1
        · rw [if_pos hl] at hfirst; exact Option.noConfusion hfirst
        · simp only [if_neg hd, if_neg hl]
          exact ⟨trivial, trivial, trivial, rfl⟩

/-- C8 on the body `<p>Key: 1A2B</p>`, the second call made with a fresh
client that gets the same answer. -/
theorem getWebAPIKey_idempotent_witness :
    (Community.answering (.ok ⟨200, ⟨ascii "<p>Key: 1A2B</p>", none⟩⟩)).GetWebAPIKey.2.1 = none ∧
      (Community.GetWebAPIKey
        { (Community.answering (.ok ⟨200, ⟨ascii "<p>Key: 1A2B</p>", none⟩⟩)).GetWebAPIKey.2.2 with
          client := Client.answering (.ok ⟨200, ⟨ascii "<p>Key: 1A2B</p>", none⟩⟩) }).2.1 = none ∧
      (Community.GetWebAPIKey
        { (Community.answering (.ok ⟨200, ⟨ascii "<p>Key: 1A2B</p>", none⟩⟩)).GetWebAPIKey.2.2 with
          client := Client.answering (.ok ⟨200, ⟨ascii "<p>Key: 1A2B</p>", none⟩⟩) }).1
        = (Community.answering (.ok ⟨200, ⟨ascii "<p>Key: 1A2B</p>", none⟩⟩)).GetWebAPIKey.1 :=
  ⟨by decide,
   (getWebAPIKey_idempotent (Community.answering (.ok ⟨200, ⟨ascii "<p>Key: 1A2B</p>", none⟩⟩))
      (Client.answering (.ok ⟨200, ⟨ascii "<p>Key: 1A2B</p>", none⟩⟩)) rfl (by decide)).1,
   (getWebAPIKey_idempotent (Community.answering (.ok ⟨200, ⟨ascii "<p>Key: 1A2B</p>", none⟩⟩))
      (Client.answering (.ok ⟨200, ⟨ascii "<p>Key: 1A2B</p>", none⟩⟩)) rfl (by decide)).2.1⟩

/-- C9: a key `k` that `GetWebAPIKey` returns without error is well formed
and stands on the page: `k` is not empty, each of its bytes is one of `0-9`,
`A-F`, and `<p>Key: ` followed by `k` and `</p>` is a contiguous part of the
body of the response received. -/
theorem getWebAPIKey_key_well_formed (community : Community)
    (hok : community.GetWebAPIKey.2.1 = none) :
    community.GetWebAPIKey.1 ≠ [] ∧ (∀ b ∈ community.GetWebAPIKey.1, isUpperHex b) ∧
      ∃ resp, community.client.respond getRequest = .ok resp ∧
        ascii "<p>Key: " ++ community.GetWebAPIKey.1 ++ ascii "</p>" <:+: resp.Body.data := by
  cases h : community.client.respond getRequest with
  | fail resp e =>
    rw [getWebAPIKey_fail community resp e h] at hok
    exact Option.noConfusion hok
  | ok resp =>
    obtain ⟨status, ⟨body, err⟩⟩ := resp
    cases err with
    | some e =>
      rw [getWebAPIKey_readErr community status body e h] at hok
      exact Option.noConfusion hok
    | none =>
      rw [getWebAPIKey_read community status body h] at hok ⊢
      by_cases hd : (accessDeniedPattern.find body).isSome = true
      · rw [if_pos hd] at hok; exact Option.noConfusion hok
      · rw [if_neg hd] at hok ⊢
        by_cases hl : (keyRegExp.FindStringSubmatch body).length ≤ 1
        · rw [if_pos hl] at hok; exact Option.noConfusion hok
        · rw [if_neg hl]
          cases hf : keyRegExp.find body with
          | none => simp [Regexp.FindStringSubmatch, hf] at hl
          | some m =>
            obtain ⟨before, k, after, ⟨e, hk, hall⟩, rfl⟩ := find_keyRegExp_eq_some hf
            simp only [Regexp.FindStringSubmatch, hf, Option.getD_some, List.getD_cons_succ,
              List.getD_cons_zero]
            refine ⟨hk, hall, _, rfl, before, after, ?_⟩
            rw [e]; simp

/-- C9 on a body with two key paragraphs: the key returned is not empty. -/
theorem getWebAPIKey_key_well_formed_witness :
    (Community.answering (.ok ⟨200,
      ⟨ascii "<p>Key: 0F</p><p>Key: 1A2B</p>", none⟩⟩)).GetWebAPIKey.2.1 = none ∧
    (Community.answering (.ok ⟨200,
      ⟨ascii "<p>Key: 0F</p><p>Key: 1A2B</p>", none⟩⟩)).GetWebAPIKey.1 ≠ [] :=
  ⟨by decide,
   (getWebAPIKey_key_well_formed
    (Community.answering (.ok ⟨200, ⟨ascii "<p>Key: 0F</p><p>Key: 1A2B</p>", none⟩⟩))
    (by decide)).1⟩

/-- C10: the two mutating requests carry the documented form. For every
session and every domain, `RegisterWebAPIKey` has its client execute one more
request, a POST to the registration endpoint whose body decodes (as
`url.ParseQuery` decodes it, without error) to the four fields
`Submit = Register`, `agreeToTerms = agreed`, `domain` = the domain as given
and `sessionid` = the session token, one value each; and `RevokeWebAPIKey` one
more request, a POST to the revocation endpoint whose body decodes to the two
fields `revoke = Revoke My Steam Web API Key` and `sessionid` = the session
token. -/
theorem requests_carry_the_form (community : Community) (domain : GoString) :
    (∃ body,
      (community.RegisterWebAPIKey domain).2.client.sent =
          community.client.sent ++ [⟨ascii "POST", apiKeyRegisterURL, some body⟩] ∧
        url.ParseQuery body =
          ([(ascii "Submit", [ascii "Register"]), (ascii "agreeToTerms", [ascii "agreed"]),
            (ascii "domain", [domain]), (ascii "sessionid", [community.sessionID])], none)) ∧
    (∃ body,
      community.RevokeWebAPIKey.2.client.sent =
          community.client.sent ++ [⟨ascii "POST", apiKeyRevokeURL, some body⟩] ∧
        url.ParseQuery body =
          ([(ascii "revoke", [ascii "Revoke My Steam Web API Key"]),
            (ascii "sessionid", [community.sessionID])], none)) := by
  constructor
  · refine ⟨_, ?_, (encode_register community.sessionID domain) ▸
      parseQuery_register community.sessionID domain⟩
    rw [registerWebAPIKey_eq]
    split
    · rfl
    · split <;> rfl
  · refine ⟨_, ?_, (encode_revoke community.sessionID) ▸
      parseQuery_revoke community.sessionID⟩
    rw [revokeWebAPIKey_eq]
    split
    · rfl
    · split <;> rfl

end Steam
